import Mathlib

/-!
Verification development for the eMeals recipe harvester
(`src/main.rs`, `src/latex_recipes.rs`, `src/latex_ingredients.rs`).

The HTML page handed to the extractor is modelled by the results of the
structural queries the code performs on it (`select` container queries);
network and file-system effects are modelled by explicit oracles
(`fetch`, `persist`).  All other logic is translated directly from the
Rust source.
-/

/-- Model of a parsed page (`select::document::Document`) through the
results of the structural queries the source performs on it:
`mainTitle` is `find(Class("mainTitle")).next()`, `sideTitle` is
`find(Class("sideTitle")).next()`, `imageUrl` is the result of
`get_image_url` (image element's `src` attribute, if any), `times` the
texts of `Class("times") descendant time`, the main/side lists the texts
of the `li` items under the respective containers, and `ingredientsLi`
the texts of `Class("ingredients") descendant li` used by `process_url`. -/
structure Page where
  mainTitle : Option String
  sideTitle : Option String
  imageUrl : Option String
  times : List String
  mainIngredients : List String
  mainInstructions : List String
  sideIngredients : List String
  sideInstructions : List String
  ingredientsLi : List String
deriving DecidableEq, Repr

/-- Rust's `url.split("/")` on the character list of the URL: splits at
every `'/'`, keeping empty segments (so the result is never empty, and a
trailing `'/'` yields a final empty segment). -/
def splitSlash : List Char → List (List Char)
  | [] => [[]]
  | c :: cs =>
    if c = '/' then [] :: splitSlash cs
    else
      match splitSlash cs with
      | [] => [[c]]
      | r :: rs => (c :: r) :: rs

/-- One chunk pushed onto `recipe_latex` by `get_recipe`
(`latex_recipes.rs`), tagged by which `push_str` site emitted it. -/
inductive Piece where
  | image (filename : String)
  | titleHead (t : String)
  | medskip
  | sideHead (t : String)
  | time (t : String)
  | timesEnd
  | ingHeading
  | beginItemize
  | item (t : String)
  | endItemize
  | bigskip
  | instrHeading
  | beginEnum
  | enumItem (t : String)
  | endEnum
  | sideIngHeading
  | sideInstrHeading
deriving DecidableEq, Repr

/-- The exact text each `push_str` site of `get_recipe` appends. -/
def renderPiece : Piece → String
  | .image fn =>
      "\\begin\x7bcenter\x7d\\includegraphics[height=3in]\x7b" ++ fn ++
        "\x7d\\end\x7bcenter\x7d\n\n"
  | .titleHead t => "\x7b\\noindent\\Large " ++ t ++ "\x7d\n\n"
  | .medskip => "\\medskip\n"
  | .sideHead t => "\x7b\\noindent\\large " ++ t ++ "\x7d\n\n"
  | .time t => t ++ " "
  | .timesEnd => "\n\n\\bigskip\n"
  | .ingHeading => "\x7b\\noindent\\large Ingredients\x7d\n"
  | .beginItemize => "\\begin\x7bitemize\x7d\n"
  | .item t => "    \\item[] " ++ t ++ "\n"
  | .endItemize => "\\end\x7bitemize\x7d\n"
  | .bigskip => "\\bigskip\n"
  | .instrHeading => "\x7b\\noindent\\large Instructions\x7d\n"
  | .beginEnum => "\\begin\x7benumerate\x7d\n"
  | .enumItem t => "    \\item " ++ t ++ "\n"
  | .endEnum => "\\end\x7benumerate\x7d\n"
  | .sideIngHeading => "\x7b\\noindent\\large Side Dish Ingredients\x7d\n"
  | .sideInstrHeading => "\x7b\\noindent\\large Side Dish Instructions\x7d\n"

/-- Concatenation of the chunks, i.e. the final `recipe_latex` string. -/
def renderPieces (ps : List Piece) : String :=
  String.join (ps.map renderPiece)

/-- The sequence of chunks `get_recipe` pushes for a page whose title was
found, given the image directive decision (`img = some fn` iff the image
was downloaded and saved under filename `fn`).  Follows the `push_str`
sites of `latex_recipes.rs` in source order; `has_side` is the presence
of the `sideTitle` element. -/
def piecesOf (p : Page) (title : String) (img : Option String) : List Piece :=
  (match img with
   | some fn => [Piece.image fn]
   | none => []) ++
  [Piece.titleHead title, Piece.medskip] ++
  (match p.sideTitle with
   | some s => [Piece.sideHead s, Piece.medskip]
   | none => []) ++
  p.times.map Piece.time ++
  [Piece.timesEnd, Piece.ingHeading, Piece.beginItemize] ++
  p.mainIngredients.map Piece.item ++
  [Piece.endItemize, Piece.bigskip, Piece.instrHeading, Piece.beginEnum] ++
  p.mainInstructions.map Piece.enumItem ++
  [Piece.endEnum, Piece.bigskip] ++
  (if p.sideTitle.isSome then
    [Piece.sideIngHeading, Piece.beginItemize] ++
    p.sideIngredients.map Piece.item ++
    [Piece.endItemize, Piece.bigskip, Piece.sideInstrHeading, Piece.beginEnum] ++
    p.sideInstructions.map Piece.enumItem ++
    [Piece.endEnum]
   else [])

/-- `latex_recipes::get_recipe`, with the image download / `File::create`
/ `copy` step abstracted by the oracle `persist filename url` (directory
creation is taken to succeed).  Mirrors the source control flow: missing
title is a fatal error; if an image URL is present its filename is the
last element of `url.split("/")` (the `None` arm of that match — warn
and skip — is kept, as in the source); a failing persist step propagates
its error, failing the whole recipe. -/
def get_recipe (persist : String → String → Except String Unit) (p : Page) :
    Except String String :=
  match p.mainTitle with
  | none => Except.error "Unable to find title."
  | some title =>
    match p.imageUrl with
    | some url =>
      match (splitSlash url.data).getLast? with
      | some fn =>
        let filename := String.mk fn
        match persist filename url with
        | Except.ok _ =>
            Except.ok (renderPieces (piecesOf p title (some filename)))
        | Except.error e => Except.error e
      | none => Except.ok (renderPieces (piecesOf p title none))
    | none => Except.ok (renderPieces (piecesOf p title none))

theorem splitSlash_ne_nil (cs : List Char) : splitSlash cs ≠ [] := by
  induction cs with
  | nil => simp [splitSlash]
  | cons c cs ih =>
    simp only [splitSlash]
    split
    · simp
    · split
      · simp
      · simp

theorem splitSlash_append_slash (cs : List Char) :
    splitSlash (cs ++ ['/']) = splitSlash cs ++ [[]] := by
  induction cs with
  | nil => simp [splitSlash]
  | cons c cs ih =>
    by_cases hc : c = '/'
    · subst hc
      simp [splitSlash, ih]
    · rcases h : splitSlash cs with _ | ⟨r, rs⟩
      · exact absurd h (splitSlash_ne_nil cs)
      · simp only [List.cons_append, splitSlash, if_neg hc, List.append_eq, ih, h]

theorem splitSlash_getLast?_isSome (cs : List Char) :
    ∃ fn, (splitSlash cs).getLast? = some fn := by
  rcases h : (splitSlash cs).getLast? with _ | fn
  · rw [List.getLast?_eq_none_iff] at h
    exact absurd h (splitSlash_ne_nil cs)
  · exact ⟨fn, rfl⟩

/-- The two shared aggregate collections of a harvest run
(`Arc<Mutex<Vec<String>>>` pairs in `get_urls`). -/
structure HarvestState where
  ingredients : List String
  recipes : List String
deriving DecidableEq, Repr

/-- `main::process_url`.  The HTTP client build / GET / `Document`
parse are abstracted by the oracle `fetch`; `ingLock` and `recLock`
model whether acquiring the respective mutex succeeds (`false` = the
lock is poisoned).  Returns the result together with the state of the
two aggregate collections afterwards.  Note the source order: the
page's `ingredients` items are pushed (under the ingredients lock)
before `get_recipe` runs under the recipes lock. -/
def process_url (fetch : String → Except String Page)
    (persist : String → String → Except String Unit)
    (ingLock recLock : Bool) (url : String) (st : HarvestState) :
    Except String Unit × HarvestState :=
  match fetch url with
  | Except.error e => (Except.error e, st)
  | Except.ok page =>
    if ingLock then
      let st1 : HarvestState :=
        { st with ingredients := st.ingredients ++ page.ingredientsLi }
      if recLock then
        match get_recipe persist page with
        | Except.error e => (Except.error e, st1)
        | Except.ok frag =>
            (Except.ok (), { st1 with recipes := st1.recipes ++ [frag] })
      else
        (Except.error "Failed to acquire recipe mutex for writing an entry", st1)
    else
      (Except.error "Failed to acquire ingredients mutex for adding ingredients list", st)

/-- The closure spawned per URL in `get_urls`:
`process_url(...).unwrap_or_else(|_| eprintln!("Error processing URL: {}", url))`.
Any error — fetch, missing title, or lock failure — is discarded
(the closure binds it as `_`) and replaced by the single warning line.
Returns the aggregate state and the lines printed to stderr. -/
def run_task (fetch : String → Except String Page)
    (persist : String → String → Except String Unit)
    (ingLock recLock : Bool) (url : String) (st : HarvestState) :
    HarvestState × List String :=
  match process_url fetch persist ingLock recLock url st with
  | (Except.ok _, st1) => (st1, [])
  | (Except.error _, st1) => (st1, ["Error processing URL: " ++ url])

/-- The spawn/join loop of `get_urls`, in join order: each task runs and
its warning lines are appended to the log. -/
def run_tasks (fetch : String → Except String Page)
    (persist : String → String → Except String Unit)
    (ingLock recLock : Bool) (urls : List String)
    (acc : HarvestState × List String) : HarvestState × List String :=
  urls.foldl
    (fun acc url =>
      let r := run_task fetch persist ingLock recLock url acc.1
      (r.1, acc.2 ++ r.2))
    acc

/-- `main::get_urls`: run every task, then read both collections under
their locks; a failed final acquisition is returned as an error of the
whole run.  Each mutex has a single health state for the entire run
(`ingLockOk` / `recLockOk`): `std::sync::Mutex` acquisition fails only
when the mutex is poisoned, and poisoning is persistent, so a poisoned
mutex fails every acquisition — in each spawned task AND at the final
read — while a healthy one fails none (no modelled code panics, so the
state cannot change mid-run).  The data handed to `write_ingredients` /
`write_recipes` is returned instead of being written to files. -/
def get_urls (fetch : String → Except String Page)
    (persist : String → String → Except String Unit)
    (ingLockOk recLockOk : Bool) (urls : List String) :
    Except String (HarvestState × List String) :=
  let r := run_tasks fetch persist ingLockOk recLockOk urls (⟨[], []⟩, [])
  if ingLockOk then
    if recLockOk then Except.ok r
    else Except.error "Failed to acquire recipe mutex for writing to file"
  else Except.error "Failed to acquire ingredients mutex for writing to file"

/-- One atomic operation on the shared aggregates: everything a task does
during one critical section.  `appendIngredients` is the loop pushing all
of a page's ingredient items under a single acquisition of the
ingredients mutex; `appendRecipe` is the push of one rendered fragment
under the recipes mutex. -/
inductive AggOp where
  | appendIngredients (items : List String)
  | appendRecipe (frag : String)
deriving DecidableEq, Repr

/-- Effect of one atomic aggregate operation. -/
def applyOp (st : HarvestState) : AggOp → HarvestState
  | AggOp.appendIngredients items =>
      { st with ingredients := st.ingredients ++ items }
  | AggOp.appendRecipe frag => { st with recipes := st.recipes ++ [frag] }

/-- Run a sequence of atomic aggregate operations. -/
def runOps (st : HarvestState) (ops : List AggOp) : HarvestState :=
  ops.foldl applyOp st

/-- Ingredient items contributed by one operation. -/
def ingOf : AggOp → List String
  | AggOp.appendIngredients items => items
  | AggOp.appendRecipe _ => []

/-- Recipe fragments contributed by one operation. -/
def fragOf : AggOp → List String
  | AggOp.appendIngredients _ => []
  | AggOp.appendRecipe frag => [frag]

/-- The sequence of aggregate operations one URL's task performs when
both mutex acquisitions succeed (read off `process_url`): nothing on a
fetch failure; only the ingredient append when `get_recipe` fails
(missing title, or a failing image step); both appends on success. -/
def taskOps (fetch : String → Except String Page)
    (persist : String → String → Except String Unit) (url : String) :
    List AggOp :=
  match fetch url with
  | Except.error _ => []
  | Except.ok page =>
    match get_recipe persist page with
    | Except.error _ => [AggOp.appendIngredients page.ingredientsLi]
    | Except.ok frag =>
        [AggOp.appendIngredients page.ingredientsLi, AggOp.appendRecipe frag]

/-- `Interleaves opLists merged`: `merged` is an interleaving of the
operation sequences in `opLists` that preserves each sequence's own
order — the possible global aggregate histories of concurrent tasks. -/
inductive Interleaves : List (List AggOp) → List AggOp → Prop where
  | nils (ls : List (List AggOp)) (h : ∀ l ∈ ls, l = []) : Interleaves ls []
  | take (pre : List (List AggOp)) (l : List AggOp) (post : List (List AggOp))
      (m : List AggOp) (x : AggOp)
      (h : Interleaves (pre ++ l :: post) m) :
      Interleaves (pre ++ (x :: l) :: post) (x :: m)

theorem runOps_append (st : HarvestState) (a b : List AggOp) :
    runOps st (a ++ b) = runOps (runOps st a) b :=
  List.foldl_append _ _ _ _

theorem runOps_ingredients (ops : List AggOp) (st : HarvestState) :
    (runOps st ops).ingredients = st.ingredients ++ (ops.map ingOf).flatten := by
  induction ops generalizing st with
  | nil => simp [runOps]
  | cons op ops ih =>
    cases op <;>
      simp [runOps, applyOp, ih, List.foldl_cons, List.append_assoc, ingOf] <;>
      exact (ih _).trans (by simp [applyOp])

theorem runOps_recipes (ops : List AggOp) (st : HarvestState) :
    (runOps st ops).recipes = st.recipes ++ (ops.map fragOf).flatten := by
  induction ops generalizing st with
  | nil => simp [runOps]
  | cons op ops ih =>
    cases op <;>
      simp [runOps, applyOp, ih, List.foldl_cons, List.append_assoc, fragOf] <;>
      exact (ih _).trans (by simp [applyOp])

/-- A task's effect on the aggregates equals running its operation
trace: `process_url` (with working locks) is `runOps` of `taskOps`. -/
theorem run_task_eq_runOps (fetch : String → Except String Page)
    (persist : String → String → Except String Unit) (url : String)
    (st : HarvestState) :
    (run_task fetch persist true true url st).1 =
      runOps st (taskOps fetch persist url) := by
  unfold run_task process_url taskOps
  cases h : fetch url with
  | error e => simp [runOps]
  | ok page =>
    cases hg : get_recipe persist page with
    | error e => simp [hg, runOps, applyOp]
    | ok frag => simp [hg, runOps, applyOp]

/-- Join-order execution of all tasks equals running the concatenation
of their traces. -/
theorem run_tasks_eq_runOps (fetch : String → Except String Page)
    (persist : String → String → Except String Unit) (urls : List String)
    (st : HarvestState) (logs : List String) :
    (run_tasks fetch persist true true urls (st, logs)).1 =
      runOps st ((urls.map (taskOps fetch persist)).flatten) := by
  induction urls generalizing st logs with
  | nil => simp [run_tasks, runOps]
  | cons url urls ih =>
    have hstep : run_tasks fetch persist true true (url :: urls) (st, logs) =
        run_tasks fetch persist true true urls
          ((run_task fetch persist true true url st).1,
            logs ++ (run_task fetch persist true true url st).2) := rfl
    rw [hstep, ih, run_task_eq_runOps fetch persist url st, ← runOps_append]
    congr 1

/-- The operations of an interleaving are a permutation of the
concatenation of the tasks' operation sequences. -/
theorem Interleaves.perm_flatten {ls : List (List AggOp)} {m : List AggOp}
    (h : Interleaves ls m) : List.Perm m ls.flatten := by
  induction h with
  | nils ls h =>
    rw [show ls.flatten = [] from List.flatten_eq_nil_iff.mpr h]
  | take pre l post m x _ ih =>
    have h1 : List.Perm (x :: m) (x :: (pre.flatten ++ (l ++ post.flatten))) := by
      refine List.Perm.cons x (ih.trans ?_)
      simp [List.flatten_append, List.append_assoc]
    refine h1.trans ?_
    have h2 : List.Perm (pre.flatten ++ x :: (l ++ post.flatten))
        (x :: (pre.flatten ++ (l ++ post.flatten))) := List.perm_middle
    refine h2.symm.trans ?_
    simp [List.flatten_append, List.append_assoc]

theorem flatten_map_eq_filterMap {α β : Type} (f : α → List β) (g : α → Option β)
    (hfg : ∀ a, f a = (g a).toList) (l : List α) :
    (l.map f).flatten = l.filterMap g := by
  induction l with
  | nil => simp
  | cons a l ih =>
    rcases hga : g a with _ | b <;>
      simp [List.filterMap_cons, hga, ih, hfg a]

theorem flatten_map_eq_flatten_filterMap {α β : Type} (f : α → List β)
    (g : α → Option (List β)) (hfg : ∀ a, f a = (g a).getD []) (l : List α) :
    (l.map f).flatten = (l.filterMap g).flatten := by
  induction l with
  | nil => simp
  | cons a l ih =>
    rcases hga : g a with _ | items <;>
      simp [List.filterMap_cons, hga, ih, hfg a]

/-- Each `appendIngredients` operation's items end up contiguous in the
final ingredients collection. -/
theorem runOps_ingredients_contiguous (ops : List AggOp) (st : HarvestState)
    (items : List String) (h : AggOp.appendIngredients items ∈ ops) :
    ∃ pre suf, (runOps st ops).ingredients = pre ++ items ++ suf := by
  obtain ⟨s, t, rfl⟩ := List.append_of_mem h
  refine ⟨st.ingredients ++ (s.map ingOf).flatten, ((t.map ingOf)).flatten, ?_⟩
  rw [runOps_ingredients]
  simp [ingOf, List.append_assoc]

/-- Operations on the two distinct collections commute: the ingredients
mutex and the recipes mutex are independent. -/
theorem applyOp_comm (st : HarvestState) (items : List String) (frag : String) :
    applyOp (applyOp st (AggOp.appendIngredients items)) (AggOp.appendRecipe frag) =
      applyOp (applyOp st (AggOp.appendRecipe frag)) (AggOp.appendIngredients items) := by
  simp [applyOp]

/-- `latex_recipes::DOCUMENT_BEGIN` (the Rust raw string starts with a
newline). -/
def DOCUMENT_BEGIN : String :=
  "\n\\documentclass[12pt]\x7barticle\x7d\n\n\\usepackage\x7bfullpage\x7d\n" ++
  "\\usepackage\x7bfontspec\x7d\n\\usepackage\x7bmulticol\x7d\n" ++
  "\\usepackage\x7bgraphicx\x7d\n\n\\setmainfont\x7bAndika\x7d\n\n" ++
  "\\pagestyle\x7bempty\x7d\n\n\\begin\x7bdocument\x7d\n"

/-- `latex_recipes::DOCUMENT_END`. -/
def DOCUMENT_END : String := "\n\\end\x7bdocument\x7d\n"

/-- The text appended after every recipe fragment by the `write_recipes`
loop (`format!("{}\n\\newpage\n", recipe)` minus the fragment itself). -/
def pageBreak : String := "\n\\newpage\n"

/-- The loop body of `write_recipes`: each fragment followed by a page
break. -/
def recipesBody : List String → String
  | [] => ""
  | r :: rs => (r ++ pageBreak) ++ recipesBody rs

/-- The full byte stream `latex_recipes::write_recipes` writes to
`recipes.tex` (file I/O elided): preamble, then the loop, then the
closing marker. -/
def write_recipes_doc (recipes : List String) : String :=
  DOCUMENT_BEGIN ++ recipesBody recipes ++ DOCUMENT_END

/-- Modelled from the spec's words for comparison ("the N fragments
separated by an explicit page-break directive"): fragments joined with
the separator strictly between consecutive fragments. -/
def sepJoin (sep : String) : List String → String
  | [] => ""
  | [r] => r
  | r :: rs => r ++ sep ++ sepJoin sep rs

/-- The spec-shaped document: preamble, separator-joined fragments,
closing marker. -/
def spec_recipes_doc (recipes : List String) : String :=
  DOCUMENT_BEGIN ++ sepJoin pageBreak recipes ++ DOCUMENT_END

/-- `latex_ingredients::Ingredients`. -/
structure Ingredients where
  all : List String
  max : List String
  miles : List String
deriving DecidableEq, Repr

/-- `Ingredients::new()`. -/
def Ingredients.new : Ingredients := ⟨[], [], []⟩

/-- One iteration of the `parse_ingredients` loop: push onto `all`, then
onto `max` or `miles` according to the `max` flag, then flip the flag. -/
def parse_step (acc : Ingredients × Bool) (ingredient : String) :
    Ingredients × Bool :=
  let p := acc.1
  let p1 := { p with all := p.all ++ [ingredient] }
  let p2 :=
    if acc.2 then { p1 with max := p1.max ++ [ingredient] }
    else { p1 with miles := p1.miles ++ [ingredient] }
  (p2, !acc.2)

/-- `latex_ingredients::parse_ingredients`: fold the loop over the input
with the `max` flag starting at `true`; always returns `Ok`. -/
def parse_ingredients (ingredients : List String) : Except String Ingredients :=
  Except.ok (ingredients.foldl parse_step (Ingredients.new, true)).1

/-- Elements at even 0-based indices. -/
def evens {α : Type} : List α → List α
  | [] => []
  | [x] => [x]
  | x :: _ :: xs => x :: evens xs

/-- Elements at odd 0-based indices. -/
def odds {α : Type} : List α → List α
  | [] => []
  | [_] => []
  | _ :: y :: xs => y :: odds xs

/-- Alternating merge, starting with the first list. -/
def interleave {α : Type} : List α → List α → List α
  | [], ys => ys
  | x :: xs, ys => x :: interleave ys xs
termination_by xs ys => xs.length + ys.length
decreasing_by simp; omega

theorem evens_cons_and_odds_cons {α : Type} :
    ∀ xs : List α, (∀ x, evens (x :: xs) = x :: odds xs) ∧
      (∀ x, odds (x :: xs) = evens xs)
  | [] => by
    constructor <;> intro x <;> simp [evens, odds]
  | y :: ys => by
    obtain ⟨ihE, ihO⟩ := evens_cons_and_odds_cons ys
    constructor <;> intro x
    · show x :: evens ys = x :: odds (y :: ys)
      rw [ihO y]
    · show y :: odds ys = evens (y :: ys)
      rw [ihE y]

theorem evens_cons {α : Type} (x : α) (xs : List α) :
    evens (x :: xs) = x :: odds xs :=
  (evens_cons_and_odds_cons xs).1 x

theorem odds_cons {α : Type} (x : α) (xs : List α) :
    odds (x :: xs) = evens xs :=
  (evens_cons_and_odds_cons xs).2 x

theorem evens_getElem?_and_odds_getElem? {α : Type} :
    ∀ xs : List α, (∀ i : Nat, (evens xs)[i]? = xs[2 * i]?) ∧
      (∀ i : Nat, (odds xs)[i]? = xs[2 * i + 1]?)
  | [] => by constructor <;> intro i <;> simp [evens, odds]
  | x :: xs => by
    obtain ⟨ihE, ihO⟩ := evens_getElem?_and_odds_getElem? xs
    constructor <;> intro i
    · rw [evens_cons]
      cases i with
      | zero => simp
      | succ j =>
        rw [show 2 * (j + 1) = (2 * j + 1) + 1 by ring]
        simp [ihO j]
    · rw [odds_cons]
      simp [ihE i]

theorem interleave_cons {α : Type} (x : α) (xs ys : List α) :
    interleave (x :: xs) ys = x :: interleave ys xs := by
  rw [interleave]

theorem interleave_evens_odds {α : Type} (xs : List α) :
    interleave (evens xs) (odds xs) = xs := by
  induction xs with
  | nil => simp [evens, odds, interleave]
  | cons x xs ih =>
    rw [evens_cons, odds_cons, interleave_cons, ih]

theorem foldl_parse_step (xs : List String) : ∀ (p : Ingredients) (b : Bool),
    (xs.foldl parse_step (p, b)).1 =
      ⟨p.all ++ xs,
        p.max ++ (if b then evens xs else odds xs),
        p.miles ++ (if b then odds xs else evens xs)⟩ := by
  induction xs with
  | nil => intro p b; simp [evens, odds]
  | cons x xs ih =>
    intro p b
    rw [List.foldl_cons]
    cases b with
    | true =>
      rw [show parse_step (p, true) x =
        ({ p with all := p.all ++ [x], max := p.max ++ [x] }, false) from rfl,
        ih _ false]
      simp [evens_cons, odds_cons, List.append_assoc]
    | false =>
      rw [show parse_step (p, false) x =
        ({ p with all := p.all ++ [x], miles := p.miles ++ [x] }, true) from rfl,
        ih _ true]
      simp [evens_cons, odds_cons, List.append_assoc]

theorem recipesBody_eq_sepJoin : ∀ recipes : List String,
    recipesBody recipes =
      sepJoin pageBreak recipes ++ (if recipes.isEmpty then "" else pageBreak)
  | [] => by simp [recipesBody, sepJoin]
  | [r] => by simp [recipesBody, sepJoin]
  | r :: r2 :: rs => by
    rw [show recipesBody (r :: r2 :: rs) =
      (r ++ pageBreak) ++ recipesBody (r2 :: rs) from rfl,
      recipesBody_eq_sepJoin (r2 :: rs)]
    simp [sepJoin, String.append_assoc]

/-- A page with no primary title whose page-wide ingredients query still
finds an item. -/
def pgNoTitle : Page :=
  { mainTitle := none, sideTitle := none, imageUrl := none, times := [],
    mainIngredients := [], mainInstructions := [], sideIngredients := [],
    sideInstructions := [], ingredientsLi := ["butter"] }

/-- A titled page with no side dish and no image. -/
def pgMain : Page :=
  { mainTitle := some "Main", sideTitle := none, imageUrl := none,
    times := ["10 min"], mainIngredients := ["eggs", "milk"],
    mainInstructions := ["cook"], sideIngredients := [],
    sideInstructions := [], ingredientsLi := ["eggs", "milk"] }

/-- A titled page with a side dish. -/
def pgSide : Page :=
  { mainTitle := some "Main", sideTitle := some "Side Salad",
    imageUrl := none, times := ["5 min"], mainIngredients := ["flour"],
    mainInstructions := ["mix"], sideIngredients := ["butter"],
    sideInstructions := ["toss"], ingredientsLi := ["flour", "butter"] }

/-- A titled page whose image URL ends in a trailing slash. -/
def pgSlashImage : Page :=
  { mainTitle := some "T", sideTitle := none,
    imageUrl := some "http://example.com/images/", times := [],
    mainIngredients := ["eggs"], mainInstructions := ["cook"],
    sideIngredients := [], sideInstructions := [], ingredientsLi := ["eggs"] }

/-- Persistence oracle on which every image save succeeds. -/
def persistAlways : String → String → Except String Unit :=
  fun _ _ => Except.ok ()

/-- Persistence oracle on which `File::create` fails for the empty
filename (creating `"<date>/"` hits the directory itself). -/
def persistEmptyFails : String → String → Except String Unit :=
  fun fn _ =>
    if fn = "" then Except.error "Is a directory (os error 21)"
    else Except.ok ()

/-- Fetch oracle: every URL returns the title-less page. -/
def fetchNoTitle : String → Except String Page := fun _ => Except.ok pgNoTitle

/-- Fetch oracle: every URL fails at the transport level. -/
def fetchRefused : String → Except String Page :=
  fun _ => Except.error "connection refused"

/-- Fetch oracle: every URL returns the plain titled page. -/
def fetchMain : String → Except String Page := fun _ => Except.ok pgMain

/-- Fetch oracle: URL `"a"` succeeds with the plain titled page, any
other URL fails at the transport level. -/
def fetchAB : String → Except String Page :=
  fun u => if u = "a" then Except.ok pgMain else Except.error "connection refused"

/-- C1 counterexample: processing a fetched page with no title returns
the missing-title error and leaves the recipe aggregate untouched, but
the page's ingredient items are already in the ingredients aggregate —
the URL does not "contribute nothing to either aggregate collection". -/
theorem c1_counterexample :
    process_url fetchNoTitle persistAlways true true "http://u" ⟨[], []⟩ =
      (Except.error "Unable to find title.", ⟨["butter"], []⟩) ∧
    (process_url fetchNoTitle persistAlways true true "http://u"
      ⟨[], []⟩).2.ingredients ≠ [] := by
  constructor
  · rfl
  · decide

/-- C1 (amended): for every fetched page lacking a primary title,
`process_url` fails with the missing-title extraction error and
contributes nothing to the recipe-fragment aggregate, but the page's
ingredient items — pushed before extraction — do remain in the
ingredients aggregate. -/
theorem c1_missing_title_contribution (fetch : String → Except String Page)
    (persist : String → String → Except String Unit) (url : String)
    (st : HarvestState) (page : Page)
    (hf : fetch url = Except.ok page) (ht : page.mainTitle = none) :
    process_url fetch persist true true url st =
      (Except.error "Unable to find title.",
        ⟨st.ingredients ++ page.ingredientsLi, st.recipes⟩) := by
  unfold process_url
  rw [hf]
  simp [get_recipe, ht]

theorem c1_witness :
    process_url fetchNoTitle persistAlways true true "http://u"
      ⟨["old"], ["r"]⟩ =
      (Except.error "Unable to find title.", ⟨["old", "butter"], ["r"]⟩) :=
  c1_missing_title_contribution fetchNoTitle persistAlways "http://u"
    ⟨["old"], ["r"]⟩ pgNoTitle rfl rfl

/-- C2 (code bug): at a recipe whose image URL ends in a trailing slash,
the renderer does not skip the image with a warning; `split("/")` still
yields a last (empty) segment, the image save is attempted under the
empty filename, and when that save fails — as `File::create("<date>/")`
does — the error propagates and the whole recipe fails. -/
theorem c2_trailing_slash_image_fails :
    get_recipe persistEmptyFails pgSlashImage =
      Except.error "Is a directory (os error 21)" := by
  rfl

/-- C9: for every string, `split("/")` yields a last segment, so the
renderer's "unable to figure out the filename" branch is unreachable;
for a URL ending in `'/'` the derived filename is the empty string and
the image persistence step is attempted under that empty name — a
failing save fails the recipe, a succeeding one emits an image directive
referencing the empty filename. -/
theorem c9_split_last_always_some
    (persist : String → String → Except String Unit) (p : Page)
    (url title : String) (cs : List Char)
    (ht : p.mainTitle = some title) (hu : p.imageUrl = some url)
    (hd : url.data = cs ++ ['/']) :
    (∀ ds : List Char, ∃ fn, (splitSlash ds).getLast? = some fn) ∧
    (splitSlash url.data).getLast? = some [] ∧
    (∀ e, persist "" url = Except.error e →
      get_recipe persist p = Except.error e) ∧
    (persist "" url = Except.ok () →
      get_recipe persist p =
        Except.ok (renderPieces (piecesOf p title (some "")))) := by
  have hlast : (splitSlash url.data).getLast? = some [] := by
    rw [hd, splitSlash_append_slash]
    exact List.getLast?_concat _
  have hmk : String.mk ([] : List Char) = "" := rfl
  refine ⟨splitSlash_getLast?_isSome, hlast, ?_, ?_⟩
  · intro e he
    simp [get_recipe, ht, hu, hlast, hmk, he]
  · intro ho
    simp [get_recipe, ht, hu, hlast, hmk, ho]

theorem c9_witness :
    (splitSlash "http://example.com/images/".data).getLast? = some [] ∧
    get_recipe persistEmptyFails pgSlashImage =
      Except.error "Is a directory (os error 21)" := by
  have h := c9_split_last_always_some persistEmptyFails pgSlashImage
    "http://example.com/images/" "T" "http://example.com/images".data
    rfl rfl (by decide)
  exact ⟨h.2.1, h.2.2.1 "Is a directory (os error 21)" rfl⟩

/-- C4 counterexample: a transport-level fetch failure and a
missing-title extraction failure for the same URL produce identical
warning output — the logged line names only the URL, so the two causes
are not distinguishable. -/
theorem c4_counterexample :
    (run_task fetchRefused persistAlways true true "http://u" ⟨[], []⟩).2 =
      (run_task fetchNoTitle persistAlways true true "http://u" ⟨[], []⟩).2 ∧
    (run_task fetchRefused persistAlways true true "http://u" ⟨[], []⟩).2 =
      ["Error processing URL: http://u"] := by
  constructor
  · rfl
  · rfl

/-- C4 (amended): the warning printed at the task boundary identifies
the URL but not the failure reason — the closure discards the error —
so a fetch failure and a missing-title failure for the same URL log the
very same line. -/
theorem c4_warning_url_only (fetch1 fetch2 : String → Except String Page)
    (persist : String → String → Except String Unit) (url e : String)
    (page : Page) (st1 st2 : HarvestState)
    (h1 : fetch1 url = Except.error e) (h2 : fetch2 url = Except.ok page)
    (ht : page.mainTitle = none) :
    (run_task fetch1 persist true true url st1).2 =
      ["Error processing URL: " ++ url] ∧
    (run_task fetch2 persist true true url st2).2 =
      ["Error processing URL: " ++ url] := by
  constructor
  · simp [run_task, process_url, h1]
  · simp [run_task, process_url, h2, get_recipe, ht]

theorem c4_witness :
    (run_task fetchRefused persistAlways true true "u" ⟨[], []⟩).2 =
      ["Error processing URL: " ++ "u"] ∧
    (run_task fetchNoTitle persistAlways true true "u" ⟨[], []⟩).2 =
      ["Error processing URL: " ++ "u"] :=
  c4_warning_url_only fetchRefused fetchNoTitle persistAlways "u"
    "connection refused" pgNoTitle ⟨[], []⟩ ⟨[], []⟩ rfl rfl rfl

theorem run_task_ingLock_false (fetch : String → Except String Page)
    (persist : String → String → Except String Unit) (recLock : Bool)
    (url : String) (st : HarvestState) :
    run_task fetch persist false recLock url st =
      (st, ["Error processing URL: " ++ url]) := by
  unfold run_task process_url
  cases h : fetch url <;> simp [h]

theorem run_tasks_ingLock_false (fetch : String → Except String Page)
    (persist : String → String → Except String Unit) (recLock : Bool)
    (urls : List String) : ∀ (st : HarvestState) (logs : List String),
    run_tasks fetch persist false recLock urls (st, logs) =
      (st, logs ++ urls.map (fun u => "Error processing URL: " ++ u)) := by
  induction urls with
  | nil => intro st logs; simp [run_tasks]
  | cons u urls ih =>
    intro st logs
    have hstep : run_tasks fetch persist false recLock (u :: urls) (st, logs) =
        run_tasks fetch persist false recLock urls
          ((run_task fetch persist false recLock u st).1,
            logs ++ (run_task fetch persist false recLock u st).2) := rfl
    rw [hstep, run_task_ingLock_false]
    simp [ih]

/-- C5 counterexample: with the ingredients mutex poisoned (recipes
mutex healthy), the per-URL task's lock-acquisition failure is caught at
the task boundary and handled exactly like a per-URL fetch failure — the
same swallowed result and the same warning line — refuting "the error is
surfaced to the top level as fatal ... rather than being caught and
dropped like a per-URL failure" for the in-task occurrence; the fatal
top-level error arises only at the final read, where the persisting
poison makes `get_urls` fail. -/
theorem c5_counterexample :
    run_task fetchMain persistAlways false true "u" ⟨[], []⟩ =
      run_task fetchRefused persistAlways true true "u" ⟨[], []⟩ ∧
    run_task fetchMain persistAlways false true "u" ⟨[], []⟩ =
      (⟨[], []⟩, ["Error processing URL: u"]) ∧
    get_urls fetchMain persistAlways false true ["u"] =
      Except.error "Failed to acquire ingredients mutex for writing to file" := by
  refine ⟨rfl, rfl, by simp [get_urls]⟩

/-- C5 (amended): when a collection's mutex is poisoned, the run does
fail fatally — but via the final read, where the persistent poison makes
the acquisition fail (ingredients checked first); the acquisition
failures that occur inside per-URL tasks are not surfaced directly: each
is caught at the task boundary and logged exactly like any per-URL
failure, dropping that URL's contribution from the affected critical
section (for a poisoned recipes mutex, the page's ingredient items —
pushed before the recipes lock is taken — still land). -/
theorem c5_lock_failure_scope (fetch : String → Except String Page)
    (persist : String → String → Except String Unit) (urls : List String) :
    (∀ recLockOk, get_urls fetch persist false recLockOk urls =
      Except.error "Failed to acquire ingredients mutex for writing to file") ∧
    (get_urls fetch persist true false urls =
      Except.error "Failed to acquire recipe mutex for writing to file") ∧
    (∀ (recLock : Bool) (url : String) (st : HarvestState),
      run_task fetch persist false recLock url st =
        (st, ["Error processing URL: " ++ url])) ∧
    (∀ (url : String) (st : HarvestState) (page : Page),
      fetch url = Except.ok page →
      run_task fetch persist true false url st =
        (⟨st.ingredients ++ page.ingredientsLi, st.recipes⟩,
          ["Error processing URL: " ++ url])) := by
  refine ⟨fun recLockOk => by simp [get_urls], by simp [get_urls],
    fun recLock url st => run_task_ingLock_false fetch persist recLock url st,
    fun url st page hf => ?_⟩
  unfold run_task process_url
  simp [hf]

theorem c5_witness :
    get_urls fetchMain persistAlways false true ["u"] =
      Except.error "Failed to acquire ingredients mutex for writing to file" ∧
    run_task fetchMain persistAlways false true "u" ⟨[], []⟩ =
      (⟨[], []⟩, ["Error processing URL: " ++ "u"]) ∧
    run_task fetchMain persistAlways true false "u" ⟨[], []⟩ =
      (⟨[] ++ pgMain.ingredientsLi, []⟩, ["Error processing URL: " ++ "u"]) := by
  have h := c5_lock_failure_scope fetchMain persistAlways ["u"]
  exact ⟨h.1 true, h.2.2.1 true "u" ⟨[], []⟩,
    h.2.2.2 "u" ⟨[], []⟩ pgMain rfl⟩

set_option maxRecDepth 8192 in
/-- C7 counterexample: for a single fragment the emitted document is not
preamble ++ separator-joined fragments ++ closing marker — the loop also
writes a page break after the last fragment. -/
theorem c7_counterexample :
    write_recipes_doc ["A"] ≠ spec_recipes_doc ["A"] := by
  decide

/-- C7 (amended): the emitted recipe document is exactly the fixed
preamble, the fragments separated by the page-break directive with one
additional page break after the final fragment (none when there are no
fragments), then the fixed closing marker. -/
theorem c7_document_structure (recipes : List String) :
    write_recipes_doc recipes =
      DOCUMENT_BEGIN ++
        (sepJoin pageBreak recipes ++
          (if recipes.isEmpty then "" else pageBreak)) ++
        DOCUMENT_END := by
  unfold write_recipes_doc
  rw [recipesBody_eq_sepJoin]

/-- C10: `parse_ingredients` always returns `Ok`; the `all` bucket is the
input in order, the `max` bucket holds the elements at even 0-based
indices and the `miles` bucket those at odd indices, and interleaving
the two buckets reconstructs the input — so the split between the two
per-person lists depends only on append position. -/
theorem c10_parse_ingredients (xs : List String) :
    parse_ingredients xs = Except.ok ⟨xs, evens xs, odds xs⟩ ∧
    (∀ i : Nat, (evens xs)[i]? = xs[2 * i]?) ∧
    (∀ i : Nat, (odds xs)[i]? = xs[2 * i + 1]?) ∧
    interleave (evens xs) (odds xs) = xs := by
  refine ⟨?_, (evens_getElem?_and_odds_getElem? xs).1,
    (evens_getElem?_and_odds_getElem? xs).2, interleave_evens_odds xs⟩
  unfold parse_ingredients
  rw [foldl_parse_step xs Ingredients.new true]
  simp [Ingredients.new]

theorem piecesOf_side_none (p : Page) (title : String) (img : Option String)
    (hs : p.sideTitle = none) :
    (∀ x, Piece.sideHead x ∉ piecesOf p title img) ∧
    Piece.sideIngHeading ∉ piecesOf p title img ∧
    Piece.sideInstrHeading ∉ piecesOf p title img := by
  unfold piecesOf
  rw [hs]
  cases img <;> simp

theorem piecesOf_side_some (p : Page) (title : String) (img : Option String)
    (x : String) (hs : p.sideTitle = some x) :
    Piece.sideHead x ∈ piecesOf p title img ∧
    Piece.sideIngHeading ∈ piecesOf p title img ∧
    Piece.sideInstrHeading ∈ piecesOf p title img := by
  unfold piecesOf
  rw [hs]
  cases img <;> simp

/-- C6: every successfully rendered fragment is the concatenation of the
chunks `piecesOf`; when the page has no side title those chunks contain
no side-dish heading (neither the side title heading nor the side
ingredient/instruction headings), and when the side title is `x` they
contain the heading for `x` and both side-dish section headings (whose
item lists may be empty). -/
theorem c6_side_sections (persist : String → String → Except String Unit)
    (p : Page) (title frag : String) (ht : p.mainTitle = some title)
    (hok : get_recipe persist p = Except.ok frag) :
    ∃ img, frag = renderPieces (piecesOf p title img) ∧
      (p.sideTitle = none →
        (∀ x, Piece.sideHead x ∉ piecesOf p title img) ∧
        Piece.sideIngHeading ∉ piecesOf p title img ∧
        Piece.sideInstrHeading ∉ piecesOf p title img) ∧
      (∀ x, p.sideTitle = some x →
        Piece.sideHead x ∈ piecesOf p title img ∧
        Piece.sideIngHeading ∈ piecesOf p title img ∧
        Piece.sideInstrHeading ∈ piecesOf p title img) := by
  suffices h : ∃ img, frag = renderPieces (piecesOf p title img) by
    obtain ⟨img, hfrag⟩ := h
    exact ⟨img, hfrag, fun hs => piecesOf_side_none p title img hs,
      fun x hs => piecesOf_side_some p title img x hs⟩
  cases him : p.imageUrl with
  | none =>
    simp only [get_recipe, ht, him, Except.ok.injEq] at hok
    exact ⟨none, hok.symm⟩
  | some url =>
    obtain ⟨fn, hl⟩ := splitSlash_getLast?_isSome url.data
    cases hp : persist (String.mk fn) url with
    | ok u =>
      simp only [get_recipe, ht, him, hl, hp, Except.ok.injEq] at hok
      exact ⟨some (String.mk fn), hok.symm⟩
    | error e =>
      simp only [get_recipe, ht, him, hl, hp] at hok
      exact absurd hok (by simp)

theorem c6_witness :
    ∃ img, renderPieces (piecesOf pgSide "Main" none) =
        renderPieces (piecesOf pgSide "Main" img) ∧
      (pgSide.sideTitle = none →
        (∀ x, Piece.sideHead x ∉ piecesOf pgSide "Main" img) ∧
        Piece.sideIngHeading ∉ piecesOf pgSide "Main" img ∧
        Piece.sideInstrHeading ∉ piecesOf pgSide "Main" img) ∧
      (∀ x, pgSide.sideTitle = some x →
        Piece.sideHead x ∈ piecesOf pgSide "Main" img ∧
        Piece.sideIngHeading ∈ piecesOf pgSide "Main" img ∧
        Piece.sideInstrHeading ∈ piecesOf pgSide "Main" img) :=
  c6_side_sections persistAlways pgSide "Main"
    (renderPieces (piecesOf pgSide "Main" none)) rfl rfl

/-- The fragment a URL contributes, if any (read off `process_url`):
none on fetch failure or failed extraction/rendering. -/
def taskFrag (fetch : String → Except String Page)
    (persist : String → String → Except String Unit) (url : String) :
    Option String :=
  match fetch url with
  | Except.error _ => none
  | Except.ok page =>
    match get_recipe persist page with
    | Except.error _ => none
    | Except.ok frag => some frag

/-- The ingredient items a URL contributes, if any (read off
`process_url`): its page-wide ingredient-query results whenever the
fetch succeeded, regardless of extraction. -/
def taskItems (fetch : String → Except String Page) (url : String) :
    Option (List String) :=
  match fetch url with
  | Except.error _ => none
  | Except.ok page => some page.ingredientsLi

theorem taskOps_fragOf (fetch : String → Except String Page)
    (persist : String → String → Except String Unit) (url : String) :
    ((taskOps fetch persist url).map fragOf).flatten =
      (taskFrag fetch persist url).toList := by
  unfold taskOps taskFrag
  cases hf : fetch url with
  | error e => simp
  | ok page => cases hg : get_recipe persist page <;> simp [hg, fragOf]

theorem taskOps_ingOf (fetch : String → Except String Page)
    (persist : String → String → Except String Unit) (url : String) :
    ((taskOps fetch persist url).map ingOf).flatten =
      (taskItems fetch url).getD [] := by
  unfold taskOps taskItems
  cases hf : fetch url with
  | error e => simp
  | ok page => cases hg : get_recipe persist page <;> simp [hg, ingOf]

theorem flatten_taskOps_fragOf (fetch : String → Except String Page)
    (persist : String → String → Except String Unit) (urls : List String) :
    (((urls.map (taskOps fetch persist)).flatten.map fragOf)).flatten =
      urls.filterMap (taskFrag fetch persist) := by
  rw [List.map_flatten, List.flatten_flatten, List.map_map, List.map_map]
  exact flatten_map_eq_filterMap _ _
    (fun u => taskOps_fragOf fetch persist u) urls

theorem flatten_taskOps_ingOf (fetch : String → Except String Page)
    (persist : String → String → Except String Unit) (urls : List String) :
    (((urls.map (taskOps fetch persist)).flatten.map ingOf)).flatten =
      (urls.filterMap (taskItems fetch)).flatten := by
  rw [List.map_flatten, List.flatten_flatten, List.map_map, List.map_map]
  exact flatten_map_eq_flatten_filterMap _ _
    (fun u => taskOps_ingOf fetch persist u) urls

/-- C3 (amended): for any list of URLs, the run completes — every task
is joined and `get_urls` returns success with the state of the
join-order execution of all task traces; and for ANY interleaving of the
tasks' aggregate operations, the recipe-fragment aggregate is a
permutation of exactly the successful URLs' fragments, while the
ingredients aggregate is a permutation of the ingredient items of every
URL whose fetch succeeded — including pages that then failed extraction
(missing title), whose items were pushed before `get_recipe` ran. -/
theorem c3_partial_failure (fetch : String → Except String Page)
    (persist : String → String → Except String Unit) (urls : List String)
    (merged : List AggOp)
    (h : Interleaves (urls.map (taskOps fetch persist)) merged) :
    (∃ logs, get_urls fetch persist true true urls =
      Except.ok
        (runOps ⟨[], []⟩ ((urls.map (taskOps fetch persist)).flatten), logs)) ∧
    List.Perm (runOps ⟨[], []⟩ merged).recipes
      (urls.filterMap (taskFrag fetch persist)) ∧
    List.Perm (runOps ⟨[], []⟩ merged).ingredients
      ((urls.filterMap (taskItems fetch)).flatten) := by
  refine ⟨?_, ?_, ?_⟩
  · refine ⟨(run_tasks fetch persist true true urls (⟨[], []⟩, [])).2, ?_⟩
    have h1 := run_tasks_eq_runOps fetch persist urls ⟨[], []⟩ []
    show Except.ok (run_tasks fetch persist true true urls (⟨[], []⟩, [])) = _
    rw [← h1]
  · rw [runOps_recipes, ← flatten_taskOps_fragOf fetch persist urls]
    exact List.Perm.append_left [] ((h.perm_flatten.map fragOf).flatten)
  · rw [runOps_ingredients, ← flatten_taskOps_ingOf fetch persist urls]
    exact List.Perm.append_left [] ((h.perm_flatten.map ingOf).flatten)

/-- The fragment rendered for `pgMain`. -/
def fragMain : String := renderPieces (piecesOf pgMain "Main" none)

theorem c3_witness :
    (∃ logs, get_urls fetchAB persistAlways true true ["a", "b"] =
      Except.ok
        (runOps ⟨[], []⟩
          ((["a", "b"].map (taskOps fetchAB persistAlways)).flatten), logs)) ∧
    List.Perm
      (runOps ⟨[], []⟩
        [AggOp.appendIngredients ["eggs", "milk"],
          AggOp.appendRecipe fragMain]).recipes
      (["a", "b"].filterMap (taskFrag fetchAB persistAlways)) ∧
    List.Perm
      (runOps ⟨[], []⟩
        [AggOp.appendIngredients ["eggs", "milk"],
          AggOp.appendRecipe fragMain]).ingredients
      ((["a", "b"].filterMap (taskItems fetchAB)).flatten) := by
  have h0 : Interleaves [[], []] [] := Interleaves.nils [[], []] (by simp)
  have h1 : Interleaves [[AggOp.appendRecipe fragMain], []]
      [AggOp.appendRecipe fragMain] :=
    Interleaves.take [] [] [[]] [] (AggOp.appendRecipe fragMain) h0
  have h2 : Interleaves
      [[AggOp.appendIngredients ["eggs", "milk"], AggOp.appendRecipe fragMain],
        []]
      [AggOp.appendIngredients ["eggs", "milk"], AggOp.appendRecipe fragMain] :=
    Interleaves.take [] [AggOp.appendRecipe fragMain] [[]]
      [AggOp.appendRecipe fragMain]
      (AggOp.appendIngredients ["eggs", "milk"]) h1
  have hmap : ["a", "b"].map (taskOps fetchAB persistAlways) =
      [[AggOp.appendIngredients ["eggs", "milk"], AggOp.appendRecipe fragMain],
        []] := rfl
  exact c3_partial_failure fetchAB persistAlways ["a", "b"] _ (hmap ▸ h2)

/-- C8: for any interleaving of the tasks' aggregate operations, the
final ingredients and recipe collections are permutations of the
concatenation of all calls' contents — no item lost or duplicated; each
multi-item `append_ingredients` call's items land contiguously (the loop
runs under one lock acquisition); and operations on the two collections
commute, reflecting their independent mutexes. -/
theorem c8_aggregator (opLists : List (List AggOp)) (merged : List AggOp)
    (st : HarvestState) (h : Interleaves opLists merged) :
    List.Perm (runOps st merged).ingredients
      (st.ingredients ++
        (opLists.map (fun l => (l.map ingOf).flatten)).flatten) ∧
    List.Perm (runOps st merged).recipes
      (st.recipes ++
        (opLists.map (fun l => (l.map fragOf).flatten)).flatten) ∧
    (∀ items, AggOp.appendIngredients items ∈ merged →
      ∃ pre suf, (runOps st merged).ingredients = pre ++ items ++ suf) ∧
    (∀ (st' : HarvestState) (items : List String) (frag : String),
      applyOp (applyOp st' (AggOp.appendIngredients items))
          (AggOp.appendRecipe frag) =
        applyOp (applyOp st' (AggOp.appendRecipe frag))
          (AggOp.appendIngredients items)) := by
  refine ⟨?_, ?_,
    fun items hm => runOps_ingredients_contiguous merged st items hm,
    fun st' items frag => applyOp_comm st' items frag⟩
  · rw [runOps_ingredients]
    refine List.Perm.append_left st.ingredients ?_
    refine ((h.perm_flatten.map ingOf).flatten).trans ?_
    rw [List.map_flatten, List.flatten_flatten, List.map_map]
    exact List.Perm.refl _
  · rw [runOps_recipes]
    refine List.Perm.append_left st.recipes ?_
    refine ((h.perm_flatten.map fragOf).flatten).trans ?_
    rw [List.map_flatten, List.flatten_flatten, List.map_map]
    exact List.Perm.refl _

theorem c8_witness :
    List.Perm
      (runOps ⟨[], []⟩
        [AggOp.appendIngredients ["a", "b"], AggOp.appendRecipe "R"]).ingredients
      ((⟨[], []⟩ : HarvestState).ingredients ++
        (([[AggOp.appendIngredients ["a", "b"]],
            [AggOp.appendRecipe "R"]]).map
          (fun l => (l.map ingOf).flatten)).flatten) ∧
    List.Perm
      (runOps ⟨[], []⟩
        [AggOp.appendIngredients ["a", "b"], AggOp.appendRecipe "R"]).recipes
      ((⟨[], []⟩ : HarvestState).recipes ++
        (([[AggOp.appendIngredients ["a", "b"]],
            [AggOp.appendRecipe "R"]]).map
          (fun l => (l.map fragOf).flatten)).flatten) ∧
    (∀ items, AggOp.appendIngredients items ∈
        [AggOp.appendIngredients ["a", "b"], AggOp.appendRecipe "R"] →
      ∃ pre suf,
        (runOps ⟨[], []⟩
          [AggOp.appendIngredients ["a", "b"],
            AggOp.appendRecipe "R"]).ingredients = pre ++ items ++ suf) ∧
    (∀ (st' : HarvestState) (items : List String) (frag : String),
      applyOp (applyOp st' (AggOp.appendIngredients items))
          (AggOp.appendRecipe frag) =
        applyOp (applyOp st' (AggOp.appendRecipe frag))
          (AggOp.appendIngredients items)) := by
  have h0 : Interleaves [[], []] [] := Interleaves.nils [[], []] (by simp)
  have h1 : Interleaves [[], [AggOp.appendRecipe "R"]] [AggOp.appendRecipe "R"] :=
    Interleaves.take [[]] [] [] [] (AggOp.appendRecipe "R") h0
  have h2 : Interleaves
      [[AggOp.appendIngredients ["a", "b"]], [AggOp.appendRecipe "R"]]
      [AggOp.appendIngredients ["a", "b"], AggOp.appendRecipe "R"] :=
    Interleaves.take [] [] [[AggOp.appendRecipe "R"]] [AggOp.appendRecipe "R"]
      (AggOp.appendIngredients ["a", "b"]) h1
  exact c8_aggregator
    [[AggOp.appendIngredients ["a", "b"]], [AggOp.appendRecipe "R"]]
    [AggOp.appendIngredients ["a", "b"], AggOp.appendRecipe "R"] ⟨[], []⟩ h2

set_option maxRecDepth 4096 in
/-- C3 counterexample: a run over one URL whose page lacks a title
(M = 1, K = 1, zero successes) completes, yet the ingredients aggregate
holds that failed page's item — the aggregates do not contain exactly
the contributions of the M−K successful URLs. -/
theorem c3_counterexample :
    get_urls fetchNoTitle persistAlways true true ["u"] =
      Except.ok (⟨["butter"], []⟩, ["Error processing URL: u"]) ∧
    (⟨["butter"], []⟩ : HarvestState).ingredients ≠ [] := by
  constructor
  · rfl
  · decide
